import Mathlib

/-!
Shallow embedding of the SpectraWorkshop CSV column-classification and
x-consolidation engine (`src/spectra_workshop/data/csv_import.py`).

A classified table is modelled as an ordered list of columns, each column
carrying its group tag, its header string and its list of cell values
(one per row).  pandas DataFrames are rectangular, so well-formedness
(`all columns have the same number of rows`) appears as an explicit
hypothesis where a theorem needs it.  All transforms in the source
operate on a copy of the input (`df.copy()`), so they are embedded as
pure functions.
-/

/-- The fixed closed set of semantic column groups produced by
`classify_column_group`. -/
inductive GroupTag where
  | sid
  | x
  | y
  | prd
  | md
  | time
  | cat
  | unknown
deriving DecidableEq

/-- The string form of a group tag, as stored in the level-0 labels of the
pandas MultiIndex built by `import_csv_with_groups`. -/
def GroupTag.name : GroupTag → String
  | .sid => "sid"
  | .x => "x"
  | .y => "y"
  | .prd => "prd"
  | .md => "md"
  | .time => "time"
  | .cat => "cat"
  | .unknown => "unknown"

/-- A cell value: a number, a text, or a numpy-array-like sequence of cell
values as produced by `consolidate_x_columns` (numpy object arrays may hold
arbitrary cell values, hence the nested `vec`). -/
inductive Val where
  | num (q : ℚ)
  | txt (s : String)
  | vec (l : List Val)

/-- Holds exactly on scalar numeric cells. -/
def Val.isNum : Val → Bool
  | .num _ => true
  | _ => false

/-- A column of a classified table: its group tag, its header and its cell
values in row order. -/
structure Column where
  tag : GroupTag
  header : String
  values : List Val

/-- A classified table: its columns in left-to-right order. -/
abbrev Table := List Column

/-- Python `str.startswith` / list-level character comparison:
`listStarts pre cs` is true when `pre` is an initial segment of `cs`. -/
def listStarts : List Char → List Char → Bool
  | [], _ => true
  | _ :: _, [] => false
  | a :: as, b :: bs => a == b && listStarts as bs

/-- Python `str.startswith` on ASCII strings. -/
def strStarts (s pre : String) : Bool := listStarts pre.data s.data

/-- Python `str.endswith` on ASCII strings. -/
def strEnds (s suf : String) : Bool := listStarts suf.data.reverse s.data.reverse

/-- Whitespace stripped by CPython `float()` (ASCII range). -/
def isPySpace (c : Char) : Bool :=
  c == ' ' || c == '\t' || c == '\n' || c == '\r' || c == '\x0b' || c == '\x0c'

/-- Drop one optional leading sign, as CPython `float()` does. -/
def stripSign : List Char → List Char
  | '+' :: r => r
  | '-' :: r => r
  | cs => cs

/-- Continuation of a digit group after an initial digit: digits, with each
underscore standing directly between two digits (PEP 515). -/
def afterDigit : List Char → Bool
  | [] => true
  | '_' :: [] => false
  | '_' :: c :: r => c.isDigit && afterDigit r
  | c :: r => c.isDigit && afterDigit r

/-- A non-empty digit group, underscores allowed only between digits. -/
def underscoreDigits : List Char → Bool
  | [] => false
  | c :: r => c.isDigit && afterDigit r

/-- The mantissa of a float literal: digits with an optional single decimal
point, at least one digit overall. -/
def mantissaOk (cs : List Char) : Bool :=
  match cs.span (fun c => !(c == '.')) with
  | (intPart, []) => underscoreDigits intPart
  | (intPart, _ :: fracPart) =>
    (intPart.isEmpty && underscoreDigits fracPart) ||
    (underscoreDigits intPart && fracPart.isEmpty) ||
    (underscoreDigits intPart && underscoreDigits fracPart)

/-- The exponent of a float literal: optional sign then a digit group. -/
def expPartOk (cs : List Char) : Bool := underscoreDigits (stripSign cs)

/-- A finite float literal: mantissa, optionally followed by `e`/`E` and an
exponent. -/
def numberOk (cs : List Char) : Bool :=
  match cs.span (fun c => !(c == 'e' || c == 'E')) with
  | (mant, []) => mantissaOk mant
  | (mant, _ :: ex) => mantissaOk mant && expPartOk ex

/-- Case-insensitive comparison of a character list with a lowercase word. -/
def lowerEq (cs : List Char) (s : String) : Bool := cs.map Char.toLower == s.data

/-- Models acceptance by CPython `float(str)` on ASCII strings (the
`try: float(col_str) except ValueError` test of the source): optional
surrounding whitespace, optional sign, then `inf`/`infinity`/`nan`
case-insensitively or a decimal literal with optional exponent and
PEP 515 underscores. -/
def floatParseOk (s : String) : Bool :=
  let stripped := ((s.data.dropWhile isPySpace).reverse.dropWhile isPySpace).reverse
  if stripped.isEmpty then false
  else
    let body := stripSign stripped
    if lowerEq body "inf" || lowerEq body "infinity" || lowerEq body "nan" then true
    else numberOk body

/-- Embeds `classify_column_group` (csv_import.py lines 8-54): ordered guard
clauses, first match wins. -/
def classify_column_group (columnName : String) (isFirstCol : Bool)
    (isBeforeXGroup : Bool) : GroupTag :=
  if isFirstCol && isBeforeXGroup then .sid
  else if floatParseOk columnName then .x
  else if strEnds columnName "(LAB)" then .y
  else if strEnds columnName "(NIR)" then .prd
  else if strStarts columnName "MD value" then .md
  else if strStarts columnName "Start" || strStarts columnName "Time" ||
      strStarts columnName "Date" then .time
  else if strStarts columnName "Product" then .cat
  else .unknown

/-- The x-group boundary scan of `import_csv_with_groups` (lines 70-78):
index of the first header accepted by `float()`. -/
def firstXIdx (headers : List String) : Option Nat := headers.findIdx? floatParseOk

/-- The group assignment pass of `import_csv_with_groups` (lines 80-86):
classify every header with `is_first_col = (idx == 0)` and
`is_before_x = (first_x_idx is None or idx < first_x_idx)`. -/
def assign_groups (headers : List String) : List GroupTag :=
  let fx := firstXIdx headers
  headers.enum.map (fun p =>
    classify_column_group p.2 (p.1 == 0)
      (match fx with
       | none => true
       | some j => decide (p.1 < j)))

/-- The distinct failure modes raised by the engine: pandas `KeyError` on a
missing group label, and the `ValueError`s / `IndexError` of
`expand_x_columns` (multiple x columns; dimension mismatch; the residual
`np.stack` / shape failures on non-uniform or scalar or empty cell data). -/
inductive PdError where
  | keyError
  | multipleXColumns
  | dimensionMismatch
  | stackError
deriving DecidableEq

/-- Embeds `get_group_columns` (lines 97-108): plain pandas selection of `df[group]`,
which raises `KeyError` when no column carries the requested level-0 label
and otherwise yields the matching columns with rows intact. -/
def get_group_columns (df : Table) (group : String) : Except PdError Table :=
  match df.filter (fun c => c.tag.name == group) with
  | [] => .error .keyError
  | c :: cs => .ok (c :: cs)

/-- The `'x'` level-0 test used throughout `consolidate_x_columns` and
`expand_x_columns`. -/
def isX (c : Column) : Bool := c.tag == GroupTag.x

/-- Row `i` of `df['x'].values`: the x-columns' cells of row `i` in
left-to-right column order, packed as one numpy row vector. -/
def xRowVec (xs : List Column) (i : Nat) : Val :=
  Val.vec (xs.map (fun c => c.values.getD i (Val.txt "")))

/-- Embeds `consolidate_x_columns` (lines 127-166): identity when no `x` column
exists; otherwise drop all `x` columns (keeping the others' order), and
append one `x` column named `"{first}-{last}"` whose cell in each row is
that row's x-values vector.  pandas DataFrames are rectangular, so the row
count is read off the first x column. -/
def consolidate_x_columns (df : Table) : Table :=
  match df.filter isX with
  | [] => df
  | c :: cs =>
    let newName := c.header ++ "-" ++ (((c :: cs).getLast?).getD c).header
    let consolidated := (List.range c.values.length).map (xRowVec (c :: cs))
    df.filter (fun col => !isX col) ++ [⟨GroupTag.x, newName, consolidated⟩]

/-- View a cell as a numpy 1-D array, if it is one. -/
def asVec : Val → Option (List Val)
  | .vec l => some l
  | _ => none

/-- Embeds `np.stack(x_data.values)` followed by reading `shape[1]` (lines
198-201): succeeds exactly when the cells form a non-empty list of
equal-length vectors, returning the common length and the row matrix.
The empty-input, scalar-cell and ragged-cell failures of
`np.stack`/`shape[1]` are collapsed into `none`. -/
def stackRows (cells : List Val) : Option (Nat × List (List Val)) :=
  match cells with
  | [] => none
  | v :: vs =>
    match asVec v with
    | none => none
    | some r0 =>
      if (v :: vs).all (fun c => (asVec c).any (fun r => r.length == r0.length)) then
        some (r0.length, (v :: vs).filterMap asVec)
      else none

/-- Label test on a column, the `(group, header)` pandas column label. -/
def labelMatches (t : GroupTag) (h : String) (c : Column) : Bool :=
  c.tag == t && c.header == h

/-- pandas column assignment `df[(t, h)] = vs`: replace the values of an
existing column with that label in place, else append a new column. -/
def setCol (df : Table) (t : GroupTag) (h : String) (vs : List Val) : Table :=
  if df.any (labelMatches t h) then
    df.map (fun c => if labelMatches t h c then ⟨t, h, vs⟩ else c)
  else df ++ [⟨t, h, vs⟩]

/-- First-occurrence deduplication, as the `seen`-set loop of
`expand_x_columns` (lines 224-229) and `Index.unique` do. -/
def dedupFirst {α : Type} [DecidableEq α] (seen : List α) : List α → List α
  | [] => []
  | a :: as => if a ∈ seen then dedupFirst seen as else a :: dedupFirst (a :: seen) as

/-- The column-assignment loop of `expand_x_columns` (lines 211-212):
`result_df[('x', col_name)] = expanded_data[:, i]` for each supplied
header, in order. -/
def expandAssign (base : Table) (names : List String) (mat : List (List Val)) : Table :=
  names.enum.foldl
    (fun acc p => setCol acc GroupTag.x p.2 (mat.map (fun r => r.getD p.1 (Val.txt ""))))
    base

/-- Embeds `result_df.columns.get_level_values` and `unique` (line 217):
the group tags present, in first-seen order. -/
def expandGroups (withNew : Table) : List GroupTag :=
  dedupFirst [] (withNew.map Column.tag)

/-- The `all_cols` list of `expand_x_columns` (lines 216-221): for every
group in first-seen order, that group's column labels — the supplied
header list for the x group, positional order for the others. -/
def expandCols (withNew : Table) (names : List String) : List (GroupTag × String) :=
  (expandGroups withNew).flatMap (fun g =>
    if g == GroupTag.x then names.map (fun h => (GroupTag.x, h))
    else (withNew.filter (fun col => col.tag == g)).map (fun col => (col.tag, col.header)))

/-- The final reordering of `expand_x_columns` (lines 223-231): deduplicate
the label list to first occurrences and select those columns.  Every label
selected is present by construction, so the pandas selection is total. -/
def expandReorder (withNew : Table) (names : List String) : Table :=
  (dedupFirst [] (expandCols withNew names)).filterMap
    (fun l => withNew.find? (labelMatches l.1 l.2))

/-- Embeds `expand_x_columns` (lines 169-233): identity when no `x` column exists;
`ValueError` when more than one exists; otherwise stack the single x
column's per-row vectors, check the width against the supplied header
list (`ValueError` on mismatch), drop the consolidated column, assign one
scalar x column per supplied header, and reorder so that each group's
columns sit together, groups in first-seen order, duplicates collapsed to
first occurrence. -/
def expand_x_columns (df : Table) (originalColumnNames : List String) :
    Except PdError Table :=
  match df.filter isX with
  | [] => .ok df
  | [c] =>
    match stackRows c.values with
    | none => .error .stackError
    | some (m, mat) =>
      if m ≠ originalColumnNames.length then .error .dimensionMismatch
      else .ok (expandReorder
        (expandAssign (df.filter (fun col => !labelMatches GroupTag.x c.header col))
          originalColumnNames mat)
        originalColumnNames)
  | _ :: _ :: _ => .error .multipleXColumns

/-- The regrouping that `expand_x_columns`' final reordering applies to the
non-x columns: groups in first-seen order, each group's columns kept in
their original relative order. -/
def regroupCols (cols : Table) : Table :=
  (dedupFirst [] (cols.map Column.tag)).flatMap (fun g => cols.filter (fun c => c.tag == g))

/-- Holds exactly on cells that are vectors of length `m`. -/
def isVecLen (m : Nat) : Val → Bool
  | .vec r => r.length == m
  | _ => false

/-- A concrete table with no x column, for exercising the identity branches. -/
def wNoX : Table := [⟨GroupTag.sid, "Sample", [Val.num 1]⟩,
  ⟨GroupTag.y, "Protein(LAB)", [Val.num 2]⟩]

/-- A concrete one-column table for exercising the group query. -/
def wQuery : Table := [⟨GroupTag.sid, "Sample", [Val.num 1]⟩]

/-- A concrete consolidated table whose stored vectors have length 2. -/
def wDim : Table := [⟨GroupTag.sid, "Sample", [Val.num 1]⟩,
  ⟨GroupTag.x, "1200-1201", [Val.vec [Val.num 3, Val.num 4]]⟩]

/-- A concrete table with two x columns. -/
def wMulti : Table := [⟨GroupTag.x, "1200", [Val.num 3]⟩,
  ⟨GroupTag.x, "1201", [Val.num 4]⟩]

/-- A concrete table for exercising consolidation. -/
def wCons : Table := [⟨GroupTag.sid, "Sample", [Val.num 1]⟩,
  ⟨GroupTag.x, "1200", [Val.num 3]⟩,
  ⟨GroupTag.x, "1201", [Val.num 4]⟩,
  ⟨GroupTag.x, "1202", [Val.num 5]⟩]

/-- A concrete table for exercising consolidated-column placement. -/
def wLast : Table := [⟨GroupTag.sid, "Sample", [Val.num 1]⟩,
  ⟨GroupTag.x, "1200", [Val.num 3]⟩,
  ⟨GroupTag.y, "Protein(LAB)", [Val.num 5]⟩]

/-- A concrete table whose non-x columns are contiguous by group, for the
round-trip witness. -/
def wRound : Table := [⟨GroupTag.sid, "Sample", [Val.num 1, Val.num 10]⟩,
  ⟨GroupTag.x, "1200", [Val.num 3, Val.num 30]⟩,
  ⟨GroupTag.x, "1201", [Val.num 4, Val.num 40]⟩,
  ⟨GroupTag.y, "Protein(LAB)", [Val.num 5, Val.num 50]⟩]

/-- A concrete classified table whose `time` columns are separated by an
`md` column; its headers genuinely classify to its tags. -/
def cexRound : Table := [⟨GroupTag.sid, "Sample", [Val.num 1]⟩,
  ⟨GroupTag.time, "TimeA", [Val.num 2]⟩,
  ⟨GroupTag.x, "1200", [Val.num 3]⟩,
  ⟨GroupTag.x, "1201", [Val.num 4]⟩,
  ⟨GroupTag.md, "MD value c", [Val.num 5]⟩,
  ⟨GroupTag.time, "TimeB", [Val.num 6]⟩]

/-- Claim C2: for a header that parses as a decimal number, the `sid` rule
is evaluated first, so both flags true yield `sid`; every other flag
combination yields `x`. -/
theorem claim_C2 (H : String) (hnum : floatParseOk H = true) :
    classify_column_group H true true = GroupTag.sid ∧
    ∀ f1 f2 : Bool, ¬(f1 = true ∧ f2 = true) →
      classify_column_group H f1 f2 = GroupTag.x := by
  refine ⟨by simp [classify_column_group], ?_⟩
  intro f1 f2 h
  cases f1 <;> cases f2 <;> simp_all [classify_column_group]

theorem claim_C2_witness :
    floatParseOk "1200" = true ∧
    classify_column_group "1200" true true = GroupTag.sid ∧
    classify_column_group "1200" false true = GroupTag.x :=
  ⟨by decide, (claim_C2 "1200" (by decide)).1,
    (claim_C2 "1200" (by decide)).2 false true (by simp)⟩

/-- Claim C8: the scenario header list classifies position-by-position to
`[sid, x, x, y, prd, md, time, cat]`. -/
theorem claim_C8 :
    assign_groups ["Sample", "1200", "1201.5", "Protein(LAB)", "Predicted(NIR)",
      "MD value pH", "StartTime", "Product A"]
      = [GroupTag.sid, GroupTag.x, GroupTag.x, GroupTag.y, GroupTag.prd,
          GroupTag.md, GroupTag.time, GroupTag.cat] := by
  decide

/-- Claim C10: the numeric rule is Python `float()` acceptance, so `nan`,
`inf`, `Infinity`, `-3.2e4` and `1_000` are tagged `x` whenever the flags
are not both true, and the x-group boundary scan uses the same acceptance
test. -/
theorem claim_C10 :
    (∀ H ∈ (["nan", "inf", "Infinity", "-3.2e4", "1_000"] : List String),
      floatParseOk H = true ∧
      ∀ f1 f2 : Bool, (f1 && f2) = false →
        classify_column_group H f1 f2 = GroupTag.x) ∧
    (∀ headers : List String, firstXIdx headers = headers.findIdx? floatParseOk) ∧
    assign_groups ["Sample", "nan", "1_000"] = [GroupTag.sid, GroupTag.x, GroupTag.x] := by
  exact ⟨by decide, fun _ => rfl, by decide⟩

theorem claim_C10_witness :
    ("nan" ∈ (["nan", "inf", "Infinity", "-3.2e4", "1_000"] : List String)) ∧
    classify_column_group "nan" false false = GroupTag.x :=
  ⟨by decide, (claim_C10.1 "nan" (by decide)).2 false false (by decide)⟩

/-- Claim C7: on a table with no `x`-tagged column, `consolidate_x_columns`
is the identity and `expand_x_columns` is the identity for every supplied
header list. -/
theorem claim_C7 (df : Table) (hx : df.filter isX = []) :
    consolidate_x_columns df = df ∧
    ∀ names : List String, expand_x_columns df names = .ok df := by
  constructor
  · simp [consolidate_x_columns, hx]
  · intro names
    simp [expand_x_columns, hx]

theorem claim_C7_witness :
    wNoX.filter isX = [] ∧ consolidate_x_columns wNoX = wNoX ∧
    expand_x_columns wNoX ["1200"] = .ok wNoX :=
  ⟨rfl, (claim_C7 wNoX rfl).1, (claim_C7 wNoX rfl).2 ["1200"]⟩

/-- Claim C3 (amended): `get_group_columns` fails with the pandas
`KeyError` whenever the requested group has zero matching columns — in
particular for every string outside the eight fixed tag names — and when
at least one column matches it returns exactly the matching columns,
each with its original cell values (hence the input's row order and row
count). -/
theorem claim_C3 (df : Table) (g : String) :
    ((∀ t : GroupTag, t.name ≠ g) →
      get_group_columns df g = .error .keyError) ∧
    (df.filter (fun c => c.tag.name == g) = [] →
      get_group_columns df g = .error .keyError) ∧
    (∀ (c0 : Column) (rest : List Column),
      df.filter (fun c => c.tag.name == g) = c0 :: rest →
      get_group_columns df g = .ok (c0 :: rest)) := by
  refine ⟨?_, ?_, ?_⟩
  · intro h
    have hnil : df.filter (fun c => c.tag.name == g) = [] := by
      rw [List.filter_eq_nil_iff]
      intro c _
      simp [h c.tag]
    simp [get_group_columns, hnil]
  · intro h
    simp [get_group_columns, h]
  · intro c0 rest h
    simp [get_group_columns, h]

theorem claim_C3_counterexample :
    GroupTag.name GroupTag.y = "y" ∧
    get_group_columns [⟨GroupTag.sid, "Sample", [Val.num 1]⟩] "y"
      = .error .keyError :=
  ⟨rfl, rfl⟩

theorem claim_C3_witness :
    get_group_columns wQuery "nosuchgroup" = .error .keyError ∧
    get_group_columns wQuery "sid" = .ok [⟨GroupTag.sid, "Sample", [Val.num 1]⟩] :=
  ⟨(claim_C3 wQuery "nosuchgroup").1 (by intro t; cases t <;> decide),
    (claim_C3 wQuery "sid").2.2 ⟨GroupTag.sid, "Sample", [Val.num 1]⟩ [] rfl⟩

theorem stackRows_of_uniform (cells : List Val) (m : Nat) (v : Val) (vs : List Val)
    (hcv : cells = v :: vs) (hvec : ∀ w ∈ cells, isVecLen m w = true) :
    ∃ mat, stackRows cells = some (m, mat) := by
  subst hcv
  have hv := hvec v (List.mem_cons_self ..)
  cases v with
  | num q => simp [isVecLen] at hv
  | txt s => simp [isVecLen] at hv
  | vec r0 =>
    simp only [isVecLen, beq_iff_eq] at hv
    refine ⟨(Val.vec r0 :: vs).filterMap asVec, ?_⟩
    simp only [stackRows, asVec]
    rw [if_pos, hv]
    rw [List.all_eq_true]
    intro c hc
    have hcm := hvec c hc
    cases c <;> simp_all [isVecLen, asVec]

/-- Claim C4: on a table with exactly one x column whose per-row vectors
all have length `m`, and a header list of a different length,
`expand_x_columns` fails with the dimension-mismatch error.  The input is
a pure value, mirroring the source's copy-then-transform discipline, so
it is unaltered by the failed call. -/
theorem claim_C4 (df : Table) (c0 : Column) (m : Nat) (names : List String)
    (hx : df.filter isX = [c0]) (hne : c0.values ≠ [])
    (hvec : ∀ v ∈ c0.values, isVecLen m v = true)
    (hlen : names.length ≠ m) :
    expand_x_columns df names = .error .dimensionMismatch := by
  match hcv : c0.values with
  | [] => exact absurd hcv hne
  | v :: vs =>
    obtain ⟨mat, hsr⟩ := stackRows_of_uniform c0.values m v vs hcv hvec
    simp [expand_x_columns, hx, hsr, Ne.symm hlen]

theorem claim_C4_witness :
    wDim.filter isX = [⟨GroupTag.x, "1200-1201", [Val.vec [Val.num 3, Val.num 4]]⟩] ∧
    expand_x_columns wDim ["1200"] = .error .dimensionMismatch :=
  ⟨rfl, claim_C4 wDim ⟨GroupTag.x, "1200-1201", [Val.vec [Val.num 3, Val.num 4]]⟩ 2 ["1200"]
    rfl (by simp) (by decide) (by decide)⟩

/-- Claim C5: `expand_x_columns` fails with the multiple-x-columns error on
every table with two or more x-tagged columns, for every header list; and
that error only arises when the table has at least two x-tagged columns. -/
theorem claim_C5 :
    (∀ (df : Table) (names : List String) (c1 c2 : Column) (rest : List Column),
      df.filter isX = c1 :: c2 :: rest →
      expand_x_columns df names = .error .multipleXColumns) ∧
    (∀ (df : Table) (names : List String),
      expand_x_columns df names = .error .multipleXColumns →
      2 ≤ (df.filter isX).length) := by
  constructor
  · intro df names c1 c2 rest h
    simp [expand_x_columns, h]
  · intro df names h
    match hx : df.filter isX with
    | [] => simp [expand_x_columns, hx] at h
    | [c] =>
      simp only [expand_x_columns, hx] at h
      cases hs : stackRows c.values with
      | none => simp [hs] at h
      | some p =>
        obtain ⟨m, mat⟩ := p
        simp only [hs] at h
        split at h <;> simp_all
    | c1 :: c2 :: rest =>
      simp [List.length_cons]

theorem claim_C5_witness :
    expand_x_columns wMulti ["a"] = .error .multipleXColumns ∧
    2 ≤ (wMulti.filter isX).length :=
  ⟨claim_C5.1 wMulti ["a"] ⟨GroupTag.x, "1200", [Val.num 3]⟩
      ⟨GroupTag.x, "1201", [Val.num 4]⟩ [] rfl,
    claim_C5.2 wMulti ["a"] (claim_C5.1 wMulti ["a"] ⟨GroupTag.x, "1200", [Val.num 3]⟩
      ⟨GroupTag.x, "1201", [Val.num 4]⟩ [] rfl)⟩

/-- Claim C9: on a table with at least one x column, `consolidate_x_columns`
returns exactly the non-x columns — values, tags and relative order
untouched — followed by the single consolidated x-tagged column in last
position. -/
theorem claim_C9 (df : Table) (c0 : Column) (cs : List Column)
    (hx : df.filter isX = c0 :: cs) :
    ∃ cc : Column, cc.tag = GroupTag.x ∧
      consolidate_x_columns df = df.filter (fun a => !isX a) ++ [cc] :=
  ⟨⟨GroupTag.x, c0.header ++ "-" ++ (((c0 :: cs).getLast?).getD c0).header,
      (List.range c0.values.length).map (xRowVec (c0 :: cs))⟩, rfl,
    by simp [consolidate_x_columns, hx]⟩

theorem claim_C9_witness :
    wLast.filter isX = [⟨GroupTag.x, "1200", [Val.num 3]⟩] ∧
    ∃ cc : Column, cc.tag = GroupTag.x ∧
      consolidate_x_columns wLast = wLast.filter (fun a => !isX a) ++ [cc] :=
  ⟨rfl, claim_C9 wLast ⟨GroupTag.x, "1200", [Val.num 3]⟩ [] rfl⟩

theorem some_getD_eq_get? {α : Type} (l : List α) (d : α) (i : Nat) (h : i < l.length) :
    some (l.getD i d) = l.get? i := by
  rw [List.getD_eq_getElem l d h, List.get?_eq_get h]
  simp [List.get_eq_getElem]

theorem filter_isX_nonX_append (df : Table) (cc : Column) (hcc : isX cc = true) :
    (df.filter (fun a => !isX a) ++ [cc]).filter isX = [cc] := by
  rw [List.filter_append]
  have h1 : (df.filter (fun a => !isX a)).filter isX = [] := by
    rw [List.filter_eq_nil_iff]
    intro a ha
    have := (List.mem_filter.mp ha).2
    simp_all
  rw [h1]
  simp [List.filter, hcc]

/-- Claim C6: consolidating a table with `n ≥ 1` numeric x columns yields
exactly one x-tagged column, headed by the first and last x headers joined
with a hyphen, whose cell in each row is a numeric vector of length the
number of x columns, holding that row's x values in left-to-right column
order. -/
theorem claim_C6 (df : Table) (n : Nat) (c0 : Column) (cs : List Column)
    (hx : df.filter isX = c0 :: cs)
    (hlen : ∀ a ∈ df, a.values.length = n)
    (hnum : ∀ a ∈ df.filter isX, ∀ v ∈ a.values, Val.isNum v = true) :
    ∃ cc : Column,
      (consolidate_x_columns df).filter isX = [cc] ∧
      cc.tag = GroupTag.x ∧
      cc.header = c0.header ++ "-" ++ (((c0 :: cs).getLast?).getD c0).header ∧
      cc.values.length = n ∧
      ∀ i : Nat, i < n →
        ∃ row : List Val, cc.values.get? i = some (Val.vec row) ∧
          row.length = (c0 :: cs).length ∧
          (∀ (j : Nat) (hj : j < (c0 :: cs).length),
            row.get? j = ((c0 :: cs).get ⟨j, hj⟩).values.get? i) ∧
          ∀ v ∈ row, Val.isNum v = true := by
  have hc0df : c0 ∈ df := by
    have : c0 ∈ df.filter isX := by rw [hx]; exact List.mem_cons_self ..
    exact List.mem_of_mem_filter this
  have hc0n : c0.values.length = n := hlen c0 hc0df
  refine ⟨⟨GroupTag.x, c0.header ++ "-" ++ (((c0 :: cs).getLast?).getD c0).header,
      (List.range c0.values.length).map (xRowVec (c0 :: cs))⟩, ?_, rfl, rfl, ?_, ?_⟩
  · have hstep : consolidate_x_columns df = df.filter (fun a => !isX a) ++
        [⟨GroupTag.x, c0.header ++ "-" ++ (((c0 :: cs).getLast?).getD c0).header,
          (List.range c0.values.length).map (xRowVec (c0 :: cs))⟩] := by
      simp [consolidate_x_columns, hx]
    rw [hstep]
    exact filter_isX_nonX_append df _ (by simp [isX])
  · simp [hc0n]
  · intro i hi
    refine ⟨(c0 :: cs).map (fun c => c.values.getD i (Val.txt "")), ?_, by simp, ?_, ?_⟩
    · rw [List.get?_map, List.get?_range (by omega : i < c0.values.length)]
      rfl
    · intro j hj
      rw [List.get?_map, List.get?_eq_get hj]
      have hmem : (c0 :: cs).get ⟨j, hj⟩ ∈ df := by
        apply List.mem_of_mem_filter (p := isX)
        rw [hx]
        exact List.get_mem ..
      have hvn : ((c0 :: cs).get ⟨j, hj⟩).values.length = n := hlen _ hmem
      simp only [Option.map_some']
      exact some_getD_eq_get? _ _ _ (by omega)
    · intro v hv
      obtain ⟨a, ha, hva⟩ := List.mem_map.mp hv
      have hadf : a ∈ df.filter isX := by rw [hx]; exact ha
      have hvn : a.values.length = n := hlen a (List.mem_of_mem_filter hadf)
      have : a.values.getD i (Val.txt "") ∈ a.values := by
        rw [List.getD_eq_getElem _ _ (by omega)]
        exact List.getElem_mem ..
      exact hva ▸ hnum a hadf _ this

theorem claim_C6_witness :
    ∃ cc : Column,
      (consolidate_x_columns wCons).filter isX = [cc] ∧
      cc.tag = GroupTag.x ∧
      cc.header = "1200-1202" ∧
      cc.values.length = 1 ∧
      ∀ i : Nat, i < 1 →
        ∃ row : List Val, cc.values.get? i = some (Val.vec row) ∧
          row.length = 3 ∧
          (∀ (j : Nat) (hj : j < 3), row.get? j =
            (([⟨GroupTag.x, "1200", [Val.num 3]⟩, ⟨GroupTag.x, "1201", [Val.num 4]⟩,
              ⟨GroupTag.x, "1202", [Val.num 5]⟩] : List Column).get ⟨j, hj⟩).values.get? i) ∧
          ∀ v ∈ row, Val.isNum v = true :=
  claim_C6 wCons 1 ⟨GroupTag.x, "1200", [Val.num 3]⟩
    [⟨GroupTag.x, "1201", [Val.num 4]⟩, ⟨GroupTag.x, "1202", [Val.num 5]⟩] rfl
    (by decide) (by decide)

theorem dedupFirst_replicate_mem {α : Type} [DecidableEq α] (a : α) (seen : List α)
    (h : a ∈ seen) : ∀ k : Nat, dedupFirst seen (List.replicate k a) = [] := by
  intro k
  induction k with
  | zero => rfl
  | succ k ih => simp [List.replicate, dedupFirst, h, ih]

theorem dedupFirst_append_replicate {α : Type} [DecidableEq α] (a : α) (k : Nat)
    (hk : k ≠ 0) : ∀ (ts seen : List α), a ∉ seen → a ∉ ts →
    dedupFirst seen (ts ++ List.replicate k a) = dedupFirst seen ts ++ [a] := by
  intro ts
  induction ts with
  | nil =>
    intro seen hseen _
    match k, hk with
    | k + 1, _ =>
      simp only [List.nil_append, List.replicate, dedupFirst, if_neg hseen]
      rw [dedupFirst_replicate_mem a (a :: seen) (List.mem_cons_self ..) k]
  | cons t ts ih =>
    intro seen hseen hts
    have hta : a ≠ t := fun h => hts (h ▸ List.mem_cons_self ..)
    have hts' : a ∉ ts := fun h => hts (List.mem_cons_of_mem _ h)
    by_cases hmem : t ∈ seen
    · simp only [List.cons_append, dedupFirst, if_pos hmem]
      exact ih seen hseen hts'
    · simp only [List.cons_append, dedupFirst, if_neg hmem, List.append_eq]
      rw [ih (t :: seen) (by simp [hseen, hta]) hts']

theorem dedupFirst_eq_self {α : Type} [DecidableEq α] :
    ∀ (l seen : List α), l.Nodup → (∀ b ∈ l, b ∉ seen) → dedupFirst seen l = l := by
  intro l
  induction l with
  | nil => intro seen _ _; rfl
  | cons a as ih =>
    intro seen hnd hseen
    simp only [dedupFirst, if_neg (hseen a (List.mem_cons_self ..))]
    rw [ih (a :: seen) (List.Nodup.of_cons hnd) ?_]
    intro b hb
    simp only [List.mem_cons, not_or]
    exact ⟨fun h => (List.nodup_cons.mp hnd).1 (h ▸ hb), hseen b (List.mem_cons_of_mem _ hb)⟩

theorem dedupFirst_subset {α : Type} [DecidableEq α] :
    ∀ (l seen : List α) (b : α), b ∈ dedupFirst seen l → b ∈ l := by
  intro l
  induction l with
  | nil => intro seen b h; exact absurd h (by simp [dedupFirst])
  | cons a as ih =>
    intro seen b h
    simp only [dedupFirst] at h
    split at h
    · exact List.mem_cons_of_mem _ (ih seen b h)
    · rcases List.mem_cons.mp h with h | h
      · exact h ▸ List.mem_cons_self ..
      · exact List.mem_cons_of_mem _ (ih (a :: seen) b h)

theorem range_map_getD {α : Type} (l : List α) (d : α) :
    (List.range l.length).map (fun j => l.getD j d) = l := by
  induction l with
  | nil => rfl
  | cons a as ih =>
    rw [List.length_cons, List.range_succ_eq_map, List.map_cons, List.map_map]
    simp only [List.getD_cons_zero, Function.comp_def, List.getD_cons_succ]
    rw [ih]

theorem getD_map_lt {α β : Type} (l : List α) (f : α → β) (i : Nat) (d : β)
    (h : i < l.length) : (l.map f).getD i d = f (l.get ⟨i, h⟩) := by
  rw [List.getD_eq_getElem _ _ (by simpa using h)]
  simp [List.getElem_map]

theorem list_filterMap_some_of {α : Type} (l : List α) (f : α → Option α)
    (h : ∀ a ∈ l, f a = some a) : l.filterMap f = l := by
  induction l with
  | nil => rfl
  | cons a as ih =>
    rw [List.filterMap_cons, h a (List.mem_cons_self ..),
      ih (fun b hb => h b (List.mem_cons_of_mem _ hb))]

theorem find?_label_self (big : Table)
    (hnd : (big.map (fun c => (c.tag, c.header))).Nodup) :
    ∀ c ∈ big, big.find? (labelMatches c.tag c.header) = some c := by
  induction big with
  | nil => intro c hc; exact absurd hc (by simp)
  | cons a as ih =>
    intro c hc
    rcases List.mem_cons.mp hc with rfl | hc'
    · rw [List.find?_cons_of_pos]
      simp [labelMatches]
    · rw [List.find?_cons_of_neg, ih (List.Nodup.of_cons hnd) c hc']
      intro hpos
      have : (c.tag, c.header) = (a.tag, a.header) := by
        simp only [labelMatches, Bool.and_eq_true, beq_iff_eq] at hpos
        simp [hpos.1, hpos.2]
      have hmem : (a.tag, a.header) ∈ as.map (fun c => (c.tag, c.header)) :=
        this ▸ List.mem_map_of_mem _ hc'
      exact (List.nodup_cons.mp hnd).1 hmem

theorem tag_eq_x_of_mem_filterX (df : Table) (c : Column) (h : c ∈ df.filter isX) :
    c.tag = GroupTag.x := by
  have := (List.mem_filter.mp h).2
  simpa [isX] using this

theorem tag_ne_x_of_mem_nonX (df : Table) (c : Column)
    (h : c ∈ df.filter (fun a => !isX a)) : c.tag ≠ GroupTag.x := by
  have := (List.mem_filter.mp h).2
  simpa [isX] using this

theorem column_eta_x (c : Column) (h : c.tag = GroupTag.x) :
    (⟨GroupTag.x, c.header, c.values⟩ : Column) = c := by
  cases c
  simp_all

theorem stackRows_vec_rows (r0 : List Val) (rest : List (List Val))
    (hall : ∀ r ∈ r0 :: rest, r.length = r0.length) :
    stackRows ((r0 :: rest).map Val.vec) = some (r0.length, r0 :: rest) := by
  simp only [List.map_cons, stackRows, asVec]
  rw [if_pos]
  · congr 1
    rw [← List.map_cons Val.vec r0 rest]
    rw [List.filterMap_map]
    have : (asVec ∘ Val.vec) = some := rfl
    rw [this, List.filterMap_some]
  · rw [List.all_eq_true]
    intro v hv
    rw [← List.map_cons Val.vec r0 rest] at hv
    obtain ⟨r, hr, rfl⟩ := List.mem_map.mp hv
    simp [asVec, hall r hr]

theorem foldl_setCol_append (f : Nat → List Val) :
    ∀ (ps : List (Nat × String)) (acc : Table),
    (ps.map Prod.snd).Nodup →
    (∀ p ∈ ps, ∀ a ∈ acc, ¬(a.tag = GroupTag.x ∧ a.header = p.2)) →
    ps.foldl (fun acc p => setCol acc GroupTag.x p.2 (f p.1)) acc
      = acc ++ ps.map (fun p => ⟨GroupTag.x, p.2, f p.1⟩) := by
  intro ps
  induction ps with
  | nil => intro acc _ _; simp
  | cons p ps ih =>
    intro acc hnd hfree
    rw [List.foldl_cons]
    have hany : acc.any (labelMatches GroupTag.x p.2) = false := by
      rw [List.any_eq_false]
      intro a ha
      have := hfree p (List.mem_cons_self ..) a ha
      simp only [labelMatches, Bool.and_eq_true, beq_iff_eq, not_and] at this ⊢
      intro h1 h2
      exact this h1 h2
    rw [show setCol acc GroupTag.x p.2 (f p.1)
        = acc ++ [⟨GroupTag.x, p.2, f p.1⟩] by simp [setCol, hany]]
    have hnd0 : (p.2 :: ps.map Prod.snd).Nodup := by simpa using hnd
    have hnd2 := (List.nodup_cons.mp hnd0).2
    have hnotin := (List.nodup_cons.mp hnd0).1
    have hfree' : ∀ q ∈ ps, ∀ a ∈ acc ++ [(⟨GroupTag.x, p.2, f p.1⟩ : Column)],
        ¬(a.tag = GroupTag.x ∧ a.header = q.2) := by
      intro q hq a ha
      rcases List.mem_append.mp ha with ha' | ha'
      · exact hfree q (List.mem_cons_of_mem _ hq) a ha'
      · have : a = (⟨GroupTag.x, p.2, f p.1⟩ : Column) := by simpa using ha'
        subst this
        simp only [not_and]
        intro _ hhdr
        exact hnotin (hhdr ▸ List.mem_map_of_mem Prod.snd hq)
    rw [ih (acc ++ [Column.mk GroupTag.x p.2 (f p.1)]) hnd2 hfree']
    simp

theorem enum_map_to_cols (xs : List Column) (f : Nat → List Val)
    (hf : ∀ (i : Nat) (hi : i < xs.length), f i = (xs.get ⟨i, hi⟩).values)
    (htag : ∀ c ∈ xs, c.tag = GroupTag.x) :
    (xs.map Column.header).enum.map (fun p => (⟨GroupTag.x, p.2, f p.1⟩ : Column)) = xs := by
  apply List.ext_get
  · simp
  · intro i h1 h2
    simp only [List.get_eq_getElem, List.getElem_map, List.getElem_enum]
    rw [hf i h2]
    simp only [List.get_eq_getElem]
    exact column_eta_x _ (htag _ (List.getElem_mem ..))

theorem expandAssign_eq (base : Table) (xs : List Column) (mat : List (List Val))
    (hnd : (xs.map Column.header).Nodup)
    (hbase : ∀ a ∈ base, a.tag ≠ GroupTag.x)
    (hmat : ∀ (i : Nat) (hi : i < xs.length),
      mat.map (fun r => r.getD i (Val.txt "")) = (xs.get ⟨i, hi⟩).values)
    (htag : ∀ c ∈ xs, c.tag = GroupTag.x) :
    expandAssign base (xs.map Column.header) mat = base ++ xs := by
  unfold expandAssign
  have h1 := foldl_setCol_append (fun i => mat.map (fun r => r.getD i (Val.txt "")))
    (xs.map Column.header).enum base
    (by rw [List.enum_map_snd]; exact hnd)
    (by intro p _ a ha; exact fun hc => hbase a ha hc.1)
  rw [h1, enum_map_to_cols xs _ hmat htag]

theorem list_flatMap_congr {α β : Type} (l : List α) (f g : α → List β)
    (h : ∀ a ∈ l, f a = g a) : l.flatMap f = l.flatMap g := by
  induction l with
  | nil => rfl
  | cons a as ih =>
    rw [List.flatMap_cons, List.flatMap_cons, h a (List.mem_cons_self ..),
      ih (fun b hb => h b (List.mem_cons_of_mem _ hb))]

theorem expandGroups_eq (nx xs : Table) (hnx : ∀ a ∈ nx, a.tag ≠ GroupTag.x)
    (htag : ∀ c ∈ xs, c.tag = GroupTag.x) (hne : xs ≠ []) :
    expandGroups (nx ++ xs) = dedupFirst [] (nx.map Column.tag) ++ [GroupTag.x] := by
  unfold expandGroups
  rw [List.map_append]
  have hrep : xs.map Column.tag = List.replicate (xs.map Column.tag).length GroupTag.x := by
    apply List.eq_replicate_length.mpr
    intro b hb
    obtain ⟨c, hc, rfl⟩ := List.mem_map.mp hb
    exact htag c hc
  have hnomem : GroupTag.x ∉ nx.map Column.tag := by
    intro hmem
    obtain ⟨c, hc, hcx⟩ := List.mem_map.mp hmem
    exact hnx c hc hcx
  rw [hrep]
  exact dedupFirst_append_replicate GroupTag.x (xs.map Column.tag).length
    (by simpa using hne) (nx.map Column.tag) [] (by simp) hnomem

theorem expandCols_eq (nx xs : Table) (hnx : ∀ a ∈ nx, a.tag ≠ GroupTag.x)
    (htag : ∀ c ∈ xs, c.tag = GroupTag.x) (hne : xs ≠ [])
    (hgrp : regroupCols nx = nx) :
    expandCols (nx ++ xs) (xs.map Column.header)
      = nx.map (fun c => (c.tag, c.header)) ++ xs.map (fun c => (c.tag, c.header)) := by
  unfold expandCols
  rw [expandGroups_eq nx xs hnx htag hne, List.flatMap_append]
  congr 1
  · rw [list_flatMap_congr (dedupFirst [] (nx.map Column.tag)) _
      (fun g => (nx.filter (fun c => c.tag == g)).map (fun col => (col.tag, col.header))) ?_]
    · rw [← List.map_flatMap]
      show (regroupCols nx).map (fun col => (col.tag, col.header)) = _
      rw [hgrp]
    · intro g hg
      have hgmem : g ∈ nx.map Column.tag := dedupFirst_subset _ _ g hg
      obtain ⟨a, ha, rfl⟩ := List.mem_map.mp hgmem
      rw [if_neg (by simpa using hnx a ha)]
      rw [List.filter_append, show xs.filter (fun col => col.tag == a.tag) = [] from ?_]
      · simp
      · rw [List.filter_eq_nil_iff]
        intro c hc
        simp only [beq_iff_eq]
        rw [htag c hc]
        exact fun h => hnx a ha h.symm
  · simp only [List.flatMap_cons, List.flatMap_nil, List.append_nil, if_pos]
    rw [List.map_map]
    exact (List.map_congr_left (by intro c hc; simp [htag c hc])).symm

theorem headers_nodup_of_labels (xs : Table) (t : GroupTag)
    (htag : ∀ c ∈ xs, c.tag = t)
    (hnd : (xs.map (fun c => (c.tag, c.header))).Nodup) :
    (xs.map Column.header).Nodup := by
  have hrw : xs.map Column.header
      = (xs.map (fun c => (c.tag, c.header))).map Prod.snd := by
    rw [List.map_map]
    rfl
  rw [hrw]
  apply List.Nodup.map_on ?_ hnd
  intro p hp q hq hpq
  obtain ⟨c, hc, rfl⟩ := List.mem_map.mp hp
  obtain ⟨d, hd, rfl⟩ := List.mem_map.mp hq
  simp only at hpq ⊢
  refine Prod.ext ?_ hpq
  rw [htag c hc, htag d hd]

theorem expandReorder_eq (nx xs : Table)
    (hnx : ∀ a ∈ nx, a.tag ≠ GroupTag.x)
    (htag : ∀ c ∈ xs, c.tag = GroupTag.x) (hne : xs ≠ [])
    (hgrp : regroupCols nx = nx)
    (hnd : ((nx ++ xs).map (fun c => (c.tag, c.header))).Nodup) :
    expandReorder (nx ++ xs) (xs.map Column.header) = nx ++ xs := by
  unfold expandReorder
  rw [expandCols_eq nx xs hnx htag hne hgrp, ← List.map_append,
    dedupFirst_eq_self _ [] hnd (by simp), List.filterMap_map]
  apply list_filterMap_some_of
  intro c hc
  exact find?_label_self (nx ++ xs) hnd c hc


/-- Claim C1 (amended): for a classified table with at least one data row,
pairwise-distinct `(tag, header)` column identities, at least one x column,
and whose non-x columns sit contiguously by group (so that the regrouping
applied by `expand_x_columns`' final reordering fixes them), expanding the
consolidated table with the original x headers returns exactly the non-x
columns in their original order followed by the original x columns —
headers, order, values and row count reproduced exactly. -/
theorem claim_C1 (df : Table) (n : Nat) (c0 : Column) (cs : List Column)
    (hx : df.filter isX = c0 :: cs)
    (hlen : ∀ a ∈ df, a.values.length = n) (hn : n ≠ 0)
    (hnd : (df.map (fun c => (c.tag, c.header))).Nodup)
    (hgrp : regroupCols (df.filter (fun a => !isX a)) = df.filter (fun a => !isX a)) :
    expand_x_columns (consolidate_x_columns df) ((c0 :: cs).map Column.header)
      = .ok (df.filter (fun a => !isX a) ++ (c0 :: cs)) := by
  have htagxs : ∀ c ∈ c0 :: cs, c.tag = GroupTag.x := by
    intro c hc
    apply tag_eq_x_of_mem_filterX df
    rw [hx]
    exact hc
  have hmemdf : ∀ c ∈ c0 :: cs, c ∈ df := by
    intro c hc
    apply List.mem_of_mem_filter (p := isX)
    rw [hx]
    exact hc
  have hxslen : ∀ c ∈ c0 :: cs, c.values.length = n := fun c hc => hlen c (hmemdf c hc)
  have hc0n : c0.values.length = n := hxslen c0 (List.mem_cons_self ..)
  have hnxtags : ∀ a ∈ df.filter (fun a => !isX a), a.tag ≠ GroupTag.x :=
    fun a ha => tag_ne_x_of_mem_nonX df a ha
  -- the consolidated column
  have hcons : consolidate_x_columns df
      = df.filter (fun a => !isX a) ++
        [Column.mk GroupTag.x
          (c0.header ++ "-" ++ (((c0 :: cs).getLast?).getD c0).header)
          ((List.range c0.values.length).map (xRowVec (c0 :: cs)))] := by
    simp [consolidate_x_columns, hx]
  -- the row matrix produced by np.stack
  have hconsVals : (List.range c0.values.length).map (xRowVec (c0 :: cs))
      = ((List.range n).map
          (fun j => (c0 :: cs).map (fun c => c.values.getD j (Val.txt "")))).map Val.vec := by
    rw [hc0n, List.map_map]
    rfl
  have hmemlen : ∀ r ∈ (List.range n).map
      (fun j => (c0 :: cs).map (fun c => c.values.getD j (Val.txt ""))),
      r.length = (c0 :: cs).length := by
    intro r hr
    obtain ⟨j, _, rfl⟩ := List.mem_map.mp hr
    simp
  have hrowsne : (List.range n).map
      (fun j => (c0 :: cs).map (fun c => c.values.getD j (Val.txt ""))) ≠ [] := by
    intro hcontra
    have := congrArg List.length hcontra
    simp at this
    exact hn this
  obtain ⟨r0, rest, hrr⟩ := List.exists_cons_of_ne_nil hrowsne
  have hr0len : r0.length = (c0 :: cs).length :=
    hmemlen r0 (hrr ▸ List.mem_cons_self ..)
  have hall : ∀ r ∈ r0 :: rest, r.length = r0.length := by
    intro r hr
    rw [hmemlen r (hrr ▸ hr), hr0len]
  have hstack : stackRows ((List.range c0.values.length).map (xRowVec (c0 :: cs)))
      = some ((c0 :: cs).length,
          (List.range n).map
            (fun j => (c0 :: cs).map (fun c => c.values.getD j (Val.txt "")))) := by
    rw [hconsVals, hrr, stackRows_vec_rows r0 rest hall, hr0len]
  -- dropping the consolidated column recovers the non-x block
  have hbase : ((df.filter (fun a => !isX a)) ++
      [Column.mk GroupTag.x
        (c0.header ++ "-" ++ (((c0 :: cs).getLast?).getD c0).header)
        ((List.range c0.values.length).map (xRowVec (c0 :: cs)))]).filter
      (fun col => !labelMatches GroupTag.x
        (c0.header ++ "-" ++ (((c0 :: cs).getLast?).getD c0).header) col)
      = df.filter (fun a => !isX a) := by
    rw [List.filter_append]
    have h1 : (df.filter (fun a => !isX a)).filter
        (fun col => !labelMatches GroupTag.x
          (c0.header ++ "-" ++ (((c0 :: cs).getLast?).getD c0).header) col)
        = df.filter (fun a => !isX a) := by
      rw [List.filter_eq_self]
      intro a ha
      simp [labelMatches, hnxtags a ha]
    rw [h1]
    simp [labelMatches]
  -- the label multiset of the reassembled table is that of df, hence nodup
  have hndBig : ((df.filter (fun a => !isX a) ++ (c0 :: cs)).map
      (fun c => (c.tag, c.header))).Nodup := by
    have hperm : (df.filter (fun a => !isX a) ++ (c0 :: cs)).Perm df := by
      have h1 := List.filter_append_perm isX df
      rw [hx] at h1
      exact List.perm_append_comm.trans h1
    exact ((hperm.map (fun c => (c.tag, c.header))).nodup_iff).mpr hnd
  have hndxs : ((c0 :: cs).map (fun c => (c.tag, c.header))).Nodup := by
    have hsub : (c0 :: cs).Sublist df := hx ▸ List.filter_sublist df
    exact (hsub.map (fun c => (c.tag, c.header))).nodup hnd
  have hndheaders : ((c0 :: cs).map Column.header).Nodup :=
    headers_nodup_of_labels (c0 :: cs) GroupTag.x htagxs hndxs
  -- the reassigned x columns are exactly the original ones
  have hmat : ∀ (i : Nat) (hi : i < (c0 :: cs).length),
      ((List.range n).map
        (fun j => (c0 :: cs).map (fun c => c.values.getD j (Val.txt "")))).map
        (fun r => r.getD i (Val.txt ""))
      = ((c0 :: cs).get ⟨i, hi⟩).values := by
    intro i hi
    rw [List.map_map]
    have step1 : (List.range n).map
        ((fun r => r.getD i (Val.txt "")) ∘
          (fun j => (c0 :: cs).map (fun c => c.values.getD j (Val.txt ""))))
        = (List.range n).map
          (fun j => ((c0 :: cs).get ⟨i, hi⟩).values.getD j (Val.txt "")) :=
      List.map_congr_left (fun j _ =>
        getD_map_lt (c0 :: cs) (fun c => c.values.getD j (Val.txt "")) i (Val.txt "") hi)
    rw [step1, show n = ((c0 :: cs).get ⟨i, hi⟩).values.length from
      (hxslen _ (List.get_mem ..)).symm]
    exact range_map_getD _ _
  have hassign : expandAssign (df.filter (fun a => !isX a)) ((c0 :: cs).map Column.header)
      ((List.range n).map
        (fun j => (c0 :: cs).map (fun c => c.values.getD j (Val.txt ""))))
      = df.filter (fun a => !isX a) ++ (c0 :: cs) :=
    expandAssign_eq _ _ _ hndheaders hnxtags hmat htagxs
  have hreorder : expandReorder (df.filter (fun a => !isX a) ++ (c0 :: cs))
      ((c0 :: cs).map Column.header) = df.filter (fun a => !isX a) ++ (c0 :: cs) :=
    expandReorder_eq _ _ hnxtags htagxs (by simp) hgrp hndBig
  -- assemble
  rw [hcons]
  have hfilterX := filter_isX_nonX_append df
    (Column.mk GroupTag.x
      (c0.header ++ "-" ++ (((c0 :: cs).getLast?).getD c0).header)
      ((List.range c0.values.length).map (xRowVec (c0 :: cs))))
    (by simp [isX])
  simp only [expand_x_columns, hfilterX, hstack, hbase, hassign, hreorder]
  rw [if_neg (by simp)]

theorem claim_C1_witness :
    expand_x_columns (consolidate_x_columns wRound) ["1200", "1201"]
      = .ok (wRound.filter (fun a => !isX a) ++
          [⟨GroupTag.x, "1200", [Val.num 3, Val.num 30]⟩,
           ⟨GroupTag.x, "1201", [Val.num 4, Val.num 40]⟩]) :=
  claim_C1 wRound 2 ⟨GroupTag.x, "1200", [Val.num 3, Val.num 30]⟩
    [⟨GroupTag.x, "1201", [Val.num 4, Val.num 40]⟩] rfl (by decide) (by decide)
    (by decide) (by rfl)

theorem claim_C1_counterexample :
    (expand_x_columns (consolidate_x_columns cexRound) ["1200", "1201"]).map
        (fun t => t.map (fun c => (c.tag, c.header)))
      = Except.ok [(GroupTag.sid, "Sample"), (GroupTag.time, "TimeA"),
          (GroupTag.time, "TimeB"), (GroupTag.md, "MD value c"),
          (GroupTag.x, "1200"), (GroupTag.x, "1201")] ∧
    (cexRound.filter (fun a => !isX a)).map (fun c => (c.tag, c.header))
      = [(GroupTag.sid, "Sample"), (GroupTag.time, "TimeA"),
          (GroupTag.md, "MD value c"), (GroupTag.time, "TimeB")] ∧
    [(GroupTag.sid, "Sample"), (GroupTag.time, "TimeA"), (GroupTag.time, "TimeB"),
      (GroupTag.md, "MD value c")]
      ≠ [(GroupTag.sid, "Sample"), (GroupTag.time, "TimeA"),
          (GroupTag.md, "MD value c"), (GroupTag.time, "TimeB")] ∧
    assign_groups (cexRound.map Column.header) = cexRound.map Column.tag :=
  ⟨rfl, rfl, by decide, rfl⟩
